import Mathlib

/-!
Verification of the ILC trial orchestrator in `ilc.py` (pumaking/quadrotor-ilc).

The development shallowly embeds the orchestrator's data and control flow over
exact rationals: numpy vectors become `List ℚ`, matrices become row lists
`List (List ℚ)`, and the external least-squares solver `np.linalg.lstsq`
(numpy, not part of this repository) is an abstract function parameter.
Definitions are translated from `ilc.py`; the few definitions that stand for
code outside the repository snapshot are marked `Modelled from the spec:` in
their doc comments.
-/

/- ## Basic vector and matrix operations over ℚ (numpy embeddings) -/

/-- Elementwise vector addition (numpy `+` on equal-length 1-D arrays). -/
def vadd (u v : List ℚ) : List ℚ := List.zipWith (· + ·) u v

/-- Elementwise vector subtraction (numpy `-`). -/
def vsub (u v : List ℚ) : List ℚ := List.zipWith (· - ·) u v

/-- Elementwise vector negation (numpy unary `-`). -/
def vneg (v : List ℚ) : List ℚ := v.map (fun a => -a)

/-- Scalar-vector product (numpy `c * v`). -/
def vscale (c : ℚ) (v : List ℚ) : List ℚ := v.map (fun a => c * a)

/-- Dot product of two vectors (truncates at the shorter, as `zipWith` does). -/
def dotL (u v : List ℚ) : ℚ := (List.zipWith (· * ·) u v).sum

/-- Squared Euclidean norm `‖v‖²`; square roots are not rational, so the
development states all norm facts through squares. -/
def sqNorm (v : List ℚ) : ℚ := dotL v v

/-- Matrix-vector product; a matrix is its list of rows. -/
def matVec (A : List (List ℚ)) (x : List ℚ) : List ℚ := A.map (fun r => dotL r x)

/-- Number of columns of a row-list matrix (numpy `shape[1]`). -/
def numCols (A : List (List ℚ)) : ℕ := (A.headD []).length

/-- Entry `(i, j)` of a row-list matrix, defaulting to `0` out of range. -/
def matEntry (A : List (List ℚ)) (i j : ℕ) : ℚ := (A.getD i []).getD j 0

/-- Zero vector of length `n` (numpy `np.zeros(n)`). -/
def zerosL (n : ℕ) : List ℚ := List.replicate n 0

/-- Concatenation of `n` copies of `v` (numpy `np.tile(v, n)`). -/
def tile (v : List ℚ) (n : ℕ) : List ℚ := (List.replicate n v).flatten

/-- Square diagonal matrix with diagonal `d` (numpy `np.diag(d)`). -/
def diagMat (d : List ℚ) : List (List ℚ) :=
  (List.range d.length).map (fun i =>
    (List.range d.length).map (fun j => if i = j then d.getD i 0 else 0))

/- ## C3: the relinearization precondition asserts (ilc.py lines 95-96) -/

/-- The conjunction of the two relinearization `assert` statements at
`ilc.py:95-96`, evaluated on the three configuration flags; the program
raises a fatal `AssertionError` before any simulation exactly when this
returns `false`. -/
def relinAssertsPass (relin_time relin_iter feedforward : Bool) : Bool :=
  (relin_time || !relin_iter) && !(relin_time && !relin_iter && !feedforward)

/-- C3 counterexample: with `relin-time=False, relin-iter=False,
feedforward=False` both asserts at `ilc.py:95-96` pass, so no fatal
precondition error is raised, contrary to the claim. -/
theorem relin_asserts_pass_at_all_false_counterexample :
    relinAssertsPass false false false = true := by decide

/-- C3 (amended): the configuration `relin-time=False, relin-iter=False,
feedforward=False` passes both relinearization asserts; the fatal
precondition error fires exactly when iteration-relinearization is enabled
without time-relinearization, or when time-relinearization is enabled with
neither iteration-relinearization nor feed-forward inversion. -/
theorem relin_asserts_fail_characterization (rt ri ff : Bool) :
    relinAssertsPass false false false = true ∧
    (relinAssertsPass rt ri ff = false ↔
      ((ri = true ∧ rt = false) ∨ (rt = true ∧ ri = false ∧ ff = false))) := by
  refine ⟨by decide, ?_⟩
  cases rt <;> cases ri <;> cases ff <;> simp [relinAssertsPass]

/- ## C4: lifted vector construction (ilc.py lines 133-141 and 470-479) -/

/-- The orchestrator's initial lifted control vector (`ilc.py:133-135`):
`np.zeros(N * n_control)`, then `lifted_control[::n_control] = base.g`
when `DIMS` is 2 or 3. -/
def mkLiftedControl (N n_control dims : ℕ) (g : ℚ) : List ℚ :=
  (List.range (N * n_control)).map
    (fun i => if (dims = 2 ∨ dims = 3) ∧ i % n_control = 0 then g else 0)

/-- The orchestrator's initial lifted state vector (`ilc.py:139-141`):
`np.zeros(N * n_state)`, then `lifted_state[8::n_state] = 1.0` when
`DIMS = 3`. -/
def mkLiftedState (N n_state dims : ℕ) : List ℚ :=
  (List.range (N * n_state)).map
    (fun i => if dims = 3 ∧ 8 ≤ i ∧ (i - 8) % n_state = 0 then 1 else 0)

/-- The lifted output error vector (`ilc.py:470-479`): `np.zeros(n_out * N)`
with block `i` filled from error row `i + 1`; `err k` is the `k`-th error
row (each of length `n_out` in the program). -/
def mkLiftedOutputError (n_out N : ℕ) (err : ℕ → List ℚ) : List ℚ :=
  (List.range N).flatMap (fun i => err (i + 1))

/-- C4 counterexample: the lifted state vector the orchestrator builds at
`ilc.py:139` has `N` blocks, not `N + 1`: with `N = 50` steps and a 12-entry
state block (the 3-D variants), its length is `50 * 12 = 600`, not
`51 * 12`. -/
theorem lifted_state_not_n_plus_one_blocks_counterexample :
    (mkLiftedState 50 12 3).length = 50 * 12 ∧ (mkLiftedState 50 12 3).length ≠ (50 + 1) * 12 := by
  constructor
  · simp [mkLiftedState]
  · simp [mkLiftedState]

/-- C4 (amended): every lifted vector the orchestrator builds has length an
exact multiple of its block size, with exactly `N` blocks for the lifted
control, the lifted output-error, and also the orchestrator's lifted state
buffer (it is the simulated trajectory `data`, not this buffer, that has
`N + 1` rows). -/
theorem lifted_vectors_block_lengths (N n_control n_state n_out dims : ℕ) (g : ℚ)
    (err : ℕ → List ℚ) (herr : ∀ i, (err (i + 1)).length = n_out) :
    (mkLiftedControl N n_control dims g).length = N * n_control ∧
    (mkLiftedState N n_state dims).length = N * n_state ∧
    (mkLiftedOutputError n_out N err).length = N * n_out := by
  refine ⟨by simp [mkLiftedControl], by simp [mkLiftedState], ?_⟩
  induction N with
  | zero => simp [mkLiftedOutputError]
  | succ n ih =>
      simp only [mkLiftedOutputError, List.range_succ, List.flatMap_append,
        List.flatMap_cons, List.flatMap_nil, List.length_append, List.append_nil] at *
      rw [ih, herr]
      ring

/-- C4 witness: the amended block-length theorem evaluated at a concrete
instance (`N = 3`, control block 2, state block 4, output block 2). -/
theorem lifted_vectors_block_lengths_witness :
    (mkLiftedControl 3 2 2 (981/100)).length = 3 * 2 ∧
    (mkLiftedState 3 4 3).length = 3 * 4 ∧
    (mkLiftedOutputError 2 3 (fun _ => [1, 2])).length = 3 * 2 :=
  lifted_vectors_block_lengths 3 2 4 2 2 (981/100) (fun _ => [1, 2]) (fun _ => rfl)

/- ## Supporting lemmas on the vector and matrix operations -/

theorem dotL_nil_left (v : List ℚ) : dotL [] v = 0 := by simp [dotL]

theorem dotL_nil_right (u : List ℚ) : dotL u [] = 0 := by cases u <;> simp [dotL]

theorem dotL_cons (a b : ℚ) (u v : List ℚ) : dotL (a :: u) (b :: v) = a * b + dotL u v := by
  simp [dotL]

theorem dotL_scale_left (c : ℚ) : ∀ (u v : List ℚ), dotL (vscale c u) v = c * dotL u v
  | [], v => by simp [dotL, vscale]
  | _ :: _, [] => by simp [dotL, vscale]
  | a :: u, b :: v => by
    simp only [vscale, List.map_cons, dotL_cons]
    have h := dotL_scale_left c u v
    simp only [vscale] at h
    rw [h]; ring

theorem dotL_scale_right (c : ℚ) : ∀ (u v : List ℚ), dotL u (vscale c v) = c * dotL u v
  | [], v => by simp [dotL, vscale]
  | _ :: _, [] => by simp [dotL, vscale]
  | a :: u, b :: v => by
    simp only [vscale, List.map_cons, dotL_cons]
    have h := dotL_scale_right c u v
    simp only [vscale] at h
    rw [h]; ring

theorem sqNorm_vscale (c : ℚ) (v : List ℚ) : sqNorm (vscale c v) = c ^ 2 * sqNorm v := by
  simp only [sqNorm, dotL_scale_left, dotL_scale_right]
  ring

theorem sqNorm_append (u v : List ℚ) : sqNorm (u ++ v) = sqNorm u + sqNorm v := by
  simp only [sqNorm, dotL]
  rw [List.zipWith_append _ _ _ _ _ rfl, List.sum_append]

theorem matVec_append (A B : List (List ℚ)) (x : List ℚ) :
    matVec (A ++ B) x = matVec A x ++ matVec B x := by
  simp [matVec]

theorem matVec_scale_rows (w : ℚ) (M : List (List ℚ)) (x : List ℚ) :
    matVec (M.map (vscale w)) x = vscale w (matVec M x) := by
  simp only [matVec, vscale, List.map_map]
  exact List.map_congr_left (fun r _ => dotL_scale_left w r x)

theorem vsub_vneg : ∀ (u v : List ℚ), vsub u (vneg v) = vadd u v
  | [], _ => by simp [vsub, vadd, vneg]
  | _ :: _, [] => by simp [vsub, vadd, vneg]
  | a :: u, b :: v => by
    simp only [vsub, vadd, vneg, List.map_cons, List.zipWith_cons_cons]
    have h := vsub_vneg u v
    simp only [vsub, vadd, vneg] at h
    rw [h, sub_neg_eq_add]

theorem vsub_zeros : ∀ (u : List ℚ) (n : ℕ), u.length = n → vsub u (zerosL n) = u
  | [], _, _ => by simp [vsub]
  | a :: u, n, h => by
    cases n with
    | zero => simp at h
    | succ m =>
      simp only [zerosL, List.replicate_succ, vsub, List.zipWith_cons_cons, sub_zero]
      have hm : u.length = m := by simpa using h
      have := vsub_zeros u m hm
      simp only [vsub, zerosL] at this
      rw [this]

theorem vneg_append (u v : List ℚ) : vneg (u ++ v) = vneg u ++ vneg v := by
  simp [vneg]

theorem vneg_zeros (n : ℕ) : vneg (zerosL n) = zerosL n := by
  simp [vneg, zerosL, List.map_replicate]

theorem vsub_split (u1 u2 v1 v2 : List ℚ) (h : u1.length = v1.length) :
    vsub (u1 ++ u2) (v1 ++ v2) = vsub u1 v1 ++ vsub u2 v2 := by
  simp only [vsub]
  rw [List.zipWith_append _ _ _ _ _ h]

theorem length_matVec (A : List (List ℚ)) (x : List ℚ) : (matVec A x).length = A.length := by
  simp [matVec]

theorem length_vneg (v : List ℚ) : (vneg v).length = v.length := by simp [vneg]

theorem length_tile (v : List ℚ) (n : ℕ) : (tile v n).length = n * v.length := by
  induction n with
  | zero => simp [tile]
  | succ m ih =>
    simp only [tile, List.replicate_succ, List.flatten_cons, List.length_append]
    simp only [tile] at ih
    rw [ih]; ring

theorem length_diagMat (d : List ℚ) : (diagMat d).length = d.length := by
  simp [diagMat]

theorem getD_map_range {α : Type} (f : ℕ → α) (n i : ℕ) (d : α) (h : i < n) :
    ((List.range n).map f).getD i d = f i := by
  rw [List.getD_eq_getElem?_getD, List.getElem?_map, List.getElem?_range h]
  rfl

theorem tile_getD (v : List ℚ) : ∀ (n i : ℕ), i < n * v.length →
    (tile v n).getD i 0 = v.getD (i % v.length) 0 := by
  intro n
  induction n with
  | zero => intro i h; omega
  | succ m ih =>
    intro i h
    simp only [tile, List.replicate_succ, List.flatten_cons]
    by_cases hc : i < v.length
    · rw [List.getD_eq_getElem?_getD, List.getElem?_append_left hc,
        ← List.getD_eq_getElem?_getD, Nat.mod_eq_of_lt hc]
    · push_neg at hc
      rw [List.getD_eq_getElem?_getD, List.getElem?_append_right hc,
        ← List.getD_eq_getElem?_getD]
      have hlt : i - v.length < m * v.length := by
        have hs : i < m * v.length + v.length := by
          have := h
          rw [Nat.succ_mul] at this
          exact this
        omega
      have := ih (i - v.length) hlt
      simp only [tile] at this
      rw [this, ← Nat.mod_eq_sub_mod hc]

theorem diagMat_entry (d : List ℚ) (i j : ℕ) (hi : i < d.length) (hj : j < d.length) :
    matEntry (diagMat d) i j = if i = j then d.getD i 0 else 0 := by
  simp only [matEntry, diagMat]
  rw [getD_map_range _ _ _ _ hi, getD_map_range _ _ _ _ hj]

/- ## C1: the ILC update solve (ilc.py lines 484-494) -/

/-- The ILC update computation of `ilc.py:484-494`, translated line by line:
`min_norm_mat = np.diag(np.tile(ilc.control_normalization, N))`,
`F = np.vstack((calCBpD, args.w * min_norm_mat))`,
`y = np.hstack((lifted_output_error, np.zeros(calCBpD.shape[1])))`,
`update, _, _, _ = np.linalg.lstsq(F, -y, rcond=None)`,
`update *= args.alpha`, `new_lifted_control = lifted_control + update`.
The external solver `np.linalg.lstsq` (documented by numpy as returning the
minimum-norm least-squares solution when `rcond=None`) is not part of this
repository and is passed in as the abstract function `lstsq`.  Returns the
pair `(update, new_lifted_control)`. -/
def ilcUpdateCode (lstsq : List (List ℚ) → List ℚ → List ℚ)
    (calCBpD : List (List ℚ)) (w alpha : ℚ) (control_normalization : List ℚ) (N : ℕ)
    (lifted_output_error lifted_control : List ℚ) : List ℚ × List ℚ :=
  let min_norm_mat := diagMat (tile control_normalization N)
  let F := calCBpD ++ min_norm_mat.map (vscale w)
  let y := lifted_output_error ++ zerosL (numCols calCBpD)
  let update := vscale alpha (lstsq F (vneg y))
  (update, vadd lifted_control update)

/-- Modelled from the spec's words, for the refinement comparison with
`ilcUpdateCode`: the stacked matrix `[J; w·W]` of the claimed least-squares
system. -/
def specStackedMatrix (J : List (List ℚ)) (w : ℚ) (W : List (List ℚ)) : List (List ℚ) :=
  J ++ W.map (vscale w)

/-- Modelled from the spec's words, for the refinement comparison with
`ilcUpdateCode`: the stacked right-hand side `[−y; 0]` of the claimed
least-squares system (`n` is the width of `J`). -/
def specStackedRhs (y : List ℚ) (n : ℕ) : List ℚ :=
  vneg y ++ zerosL n

/-- C1: the update for a non-final trial is computed from the stacked system
`[J; w·W]·Δu = [−y; 0]` handed to the (abstract, minimum-norm) least-squares
solver, the result is scaled by `α` and added to the running lifted control;
moreover (conjunct 3) the squared residual of that stacked system at any
candidate `Δu = du` is exactly the claimed regularized objective
`‖J·du + y‖² + w²·‖W·du‖²`, and (conjunct 4) `W` is the diagonal matrix whose
diagonal is the per-control-channel normalization tiled over the `N` steps. -/
theorem ilc_update_stacked_least_squares
    (lstsq : List (List ℚ) → List ℚ → List ℚ) (J : List (List ℚ)) (w alpha : ℚ)
    (cn : List ℚ) (N : ℕ) (y u0 du : List ℚ) (i j : ℕ)
    (hrows : J.length = y.length)
    (hcols : numCols J = N * cn.length)
    (hi : i < N * cn.length) (hj : j < N * cn.length) :
    (ilcUpdateCode lstsq J w alpha cn N y u0).2 =
      vadd u0 (vscale alpha
        (lstsq (specStackedMatrix J w (diagMat (tile cn N))) (specStackedRhs y (numCols J)))) ∧
    (ilcUpdateCode lstsq J w alpha cn N y u0).1 =
      vscale alpha
        (lstsq (specStackedMatrix J w (diagMat (tile cn N))) (specStackedRhs y (numCols J))) ∧
    sqNorm (vsub (matVec (specStackedMatrix J w (diagMat (tile cn N))) du)
        (specStackedRhs y (numCols J))) =
      sqNorm (vadd (matVec J du) y) + w ^ 2 * sqNorm (matVec (diagMat (tile cn N)) du) ∧
    matEntry (diagMat (tile cn N)) i j =
      (if i = j then cn.getD (i % cn.length) 0 else 0) := by
  have hneg : vneg (y ++ zerosL (numCols J)) = specStackedRhs y (numCols J) := by
    rw [vneg_append, vneg_zeros]; rfl
  refine ⟨?_, ?_, ?_, ?_⟩
  · simp only [ilcUpdateCode, hneg]; rfl
  · simp only [ilcUpdateCode, hneg]; rfl
  · have hsplit : matVec (specStackedMatrix J w (diagMat (tile cn N))) du =
        matVec J du ++ vscale w (matVec (diagMat (tile cn N)) du) := by
      rw [specStackedMatrix, matVec_append, matVec_scale_rows]
    have hlen1 : (matVec J du).length = (vneg y).length := by
      rw [length_matVec, length_vneg, hrows]
    have hlen2 : (vscale w (matVec (diagMat (tile cn N)) du)).length = numCols J := by
      simp only [vscale, List.length_map, length_matVec, length_diagMat, length_tile, hcols]
    rw [hsplit, specStackedRhs, vsub_split _ _ _ _ hlen1, sqNorm_append, vsub_vneg,
      vsub_zeros _ _ hlen2, sqNorm_vscale]
  · have hL : (tile cn N).length = N * cn.length := length_tile cn N
    rw [diagMat_entry _ _ _ (by rw [hL]; exact hi) (by rw [hL]; exact hj),
      tile_getD cn N i hi]

/-- A concrete stand-in solver used only to instantiate the abstract
least-squares parameter in witnesses. -/
def constSolver : List (List ℚ) → List ℚ → List ℚ := fun _ _ => [1, 0]

/-- C1 witness: the stacked-system theorem instantiated at a concrete
2-step, 1-channel problem. -/
theorem ilc_update_stacked_least_squares_witness :
    (ilcUpdateCode constSolver [[1, 0], [0, 1]] (1/100) (1/2) [2] 2 [3, 4] [5, 6]).2 =
      vadd [5, 6] (vscale (1/2)
        (constSolver (specStackedMatrix [[1, 0], [0, 1]] (1/100) (diagMat (tile [2] 2)))
          (specStackedRhs [3, 4] (numCols [[1, 0], [0, 1]])))) ∧
    (ilcUpdateCode constSolver [[1, 0], [0, 1]] (1/100) (1/2) [2] 2 [3, 4] [5, 6]).1 =
      vscale (1/2)
        (constSolver (specStackedMatrix [[1, 0], [0, 1]] (1/100) (diagMat (tile [2] 2)))
          (specStackedRhs [3, 4] (numCols [[1, 0], [0, 1]]))) ∧
    sqNorm (vsub (matVec (specStackedMatrix [[1, 0], [0, 1]] (1/100) (diagMat (tile [2] 2))) [1, 1])
        (specStackedRhs [3, 4] (numCols [[1, 0], [0, 1]]))) =
      sqNorm (vadd (matVec [[1, 0], [0, 1]] [1, 1]) [3, 4]) +
        (1/100 : ℚ) ^ 2 * sqNorm (matVec (diagMat (tile [2] 2)) [1, 1]) ∧
    matEntry (diagMat (tile [2] 2)) 0 1 =
      (if 0 = 1 then ([] : List ℚ).getD 0 0 else 0) := by
  have h := ilc_update_stacked_least_squares constSolver [[1, 0], [0, 1]] (1/100) (1/2)
    [2] 2 [3, 4] [5, 6] [1, 1] 0 1 (by decide) (by decide) (by decide) (by decide)
  refine ⟨h.1, h.2.1, h.2.2.1, ?_⟩
  have h4 := h.2.2.2
  simpa using h4

/- ## 3-D vectors and the 3-D trajectory setup (ilc.py lines 219-235) -/

/-- A 3-vector with rational components. -/
structure Vec3 where
  x : ℚ
  y : ℚ
  z : ℚ
deriving DecidableEq

/-- Componentwise addition of 3-vectors. -/
def vadd3 (a b : Vec3) : Vec3 := ⟨a.x + b.x, a.y + b.y, a.z + b.z⟩

/-- Componentwise subtraction of 3-vectors. -/
def vsub3 (a b : Vec3) : Vec3 := ⟨a.x - b.x, a.y - b.y, a.z - b.z⟩

/-- Scalar multiple of a 3-vector. -/
def smul3 (c : ℚ) (a : Vec3) : Vec3 := ⟨c * a.x, c * a.y, c * a.z⟩

/-- Dot product of 3-vectors. -/
def dot3 (a b : Vec3) : ℚ := a.x * b.x + a.y * b.y + a.z * b.z

/-- Cross product of 3-vectors (numpy `np.cross`). -/
def cross3 (a b : Vec3) : Vec3 :=
  ⟨a.y * b.z - a.z * b.y, a.z * b.x - a.x * b.z, a.x * b.y - a.y * b.x⟩

/-- Modelled from the spec: the gravity vector `g` of `ilc_models.base`
(that module is not part of the snapshot; the spec describes a gravity
vector added to the desired acceleration).  Its numeric value never matters
for the theorems below, which hold for any value. -/
def grav : ℚ := 980665 / 100000

/-- Modelled from the spec: `base.g3`, gravity as a 3-vector along `z`. -/
def g3 : Vec3 := ⟨0, 0, grav⟩

/-- Result of one step of the 3-D branch of `Controller.__init__`
(`ilc.py:219-235`): the warning flag and the computed thrust direction, its
derivative, and the desired angular velocity. -/
structure Quad3DSetup where
  warn : Bool
  zb : Vec3
  zbDot : Vec3
  angvel : Vec3
deriving DecidableEq

/-- One step of the 3-D branch of `Controller.__init__` (`ilc.py:219-235`):
`acc_vec = accel + base.g3`, `u = np.linalg.norm(acc_vec)`,
a warning is printed when `u < 1e-3`, then unconditionally
`z_b = (1.0/u) * acc_vec`, `z_b_dot = (1.0/u) * (jerk - z_b.dot(jerk) * z_b)`
and `angvel = np.cross(z_b, z_b_dot)`.  The norm `u = ‖acc_vec‖` is a square
root, which is not rational, so it is embedded as a parameter; theorems about
this definition constrain it by `u * u = dot3 acc_vec acc_vec` (with the sign
condition of the claim at hand).  The `print` of the warning is embedded as
the `warn` flag; the code neither raises nor branches on it. -/
def quad3dSetupStep (u : ℚ) (accel jerk : Vec3) : Quad3DSetup :=
  let acc_vec := vadd3 accel g3
  let warn := decide (u < 1/1000)
  let z_b := smul3 (1/u) acc_vec
  let z_b_dot := smul3 (1/u) (vsub3 jerk (smul3 (dot3 z_b jerk) z_b))
  ⟨warn, z_b, z_b_dot, cross3 z_b z_b_dot⟩

theorem dot3_smul_left (c : ℚ) (a b : Vec3) : dot3 (smul3 c a) b = c * dot3 a b := by
  simp [dot3, smul3]; ring

theorem dot3_smul_right (c : ℚ) (a b : Vec3) : dot3 a (smul3 c b) = c * dot3 a b := by
  simp [dot3, smul3]; ring

theorem dot3_vsub_right (a b c : Vec3) : dot3 a (vsub3 b c) = dot3 a b - dot3 a c := by
  simp [dot3, vsub3]; ring

/-- C5: whenever `‖a_des + g‖ ≥ 1e-3` (so in particular the norm is nonzero),
the body z-axis computed at `ilc.py:229` has unit norm (stated through its
square, since the norm itself is irrational), and the projected jerk
derivative computed at `ilc.py:230` is orthogonal to it:
`z_b · z_b_dot = 0`. -/
theorem quad3d_zb_unit_and_orthogonal (accel jerk : Vec3) (u : ℚ)
    (hnorm : u * u = dot3 (vadd3 accel g3) (vadd3 accel g3))
    (hge : (1 : ℚ)/1000 ≤ u) :
    dot3 (quad3dSetupStep u accel jerk).zb (quad3dSetupStep u accel jerk).zb = 1 ∧
    dot3 (quad3dSetupStep u accel jerk).zb (quad3dSetupStep u accel jerk).zbDot = 0 := by
  have hu0 : (0 : ℚ) < u := lt_of_lt_of_le (by norm_num) hge
  have hu : u ≠ 0 := ne_of_gt hu0
  have key : dot3 (vadd3 accel g3) (vadd3 accel g3) = u * u := hnorm.symm
  constructor
  · simp only [quad3dSetupStep, dot3_smul_left, dot3_smul_right, key]
    field_simp
  · simp only [quad3dSetupStep, dot3_smul_left, dot3_smul_right, dot3_vsub_right, key]
    field_simp

/-- C5 witness: the unit-norm and orthogonality facts at the concrete input
`a_des = (0, 0, 1) − g` (so `a_des + g = (0, 0, 1)`, `u = 1 ≥ 1e-3`) and
jerk `(0, 1, 0)`. -/
theorem quad3d_zb_unit_and_orthogonal_witness :
    dot3 (quad3dSetupStep 1 ⟨0, 0, 1 - grav⟩ ⟨0, 1, 0⟩).zb
      (quad3dSetupStep 1 ⟨0, 0, 1 - grav⟩ ⟨0, 1, 0⟩).zb = 1 ∧
    dot3 (quad3dSetupStep 1 ⟨0, 0, 1 - grav⟩ ⟨0, 1, 0⟩).zb
      (quad3dSetupStep 1 ⟨0, 0, 1 - grav⟩ ⟨0, 1, 0⟩).zbDot = 0 :=
  quad3d_zb_unit_and_orthogonal ⟨0, 0, 1 - grav⟩ ⟨0, 1, 0⟩ 1
    (by norm_num [dot3, vadd3, g3, grav]) (by norm_num)

/-- C2 counterexample: below the `1e-3` threshold the code still divides by
the near-zero norm instead of falling back.  With
`a_des + g = (1e-4, 0, 0)` (norm `u = 1e-4 < 1e-3`) the warning fires, yet
`z_b` is still the normalization `acc_vec / u` of the ill-conditioned
direction — it differs between two sub-threshold inputs, so it is no fixed
safe default and no previous direction — and `z_b_dot` picks up the factor
`1/u = 10⁴`: for jerk `(0, 1, 0)` it is `(0, 10000, 0)`. -/
theorem quad3d_low_norm_divides_counterexample :
    ((1 : ℚ)/10000 < 1/1000) ∧
    (quad3dSetupStep (1/10000) (vsub3 ⟨1/10000, 0, 0⟩ g3) ⟨0, 1, 0⟩).warn = true ∧
    (quad3dSetupStep (1/10000) (vsub3 ⟨1/10000, 0, 0⟩ g3) ⟨0, 1, 0⟩).zb = ⟨1, 0, 0⟩ ∧
    (quad3dSetupStep (1/10000) (vsub3 ⟨0, 1/10000, 0⟩ g3) ⟨0, 1, 0⟩).zb = ⟨0, 1, 0⟩ ∧
    (quad3dSetupStep (1/10000) (vsub3 ⟨1/10000, 0, 0⟩ g3) ⟨0, 1, 0⟩).zb ≠
      (quad3dSetupStep (1/10000) (vsub3 ⟨0, 1/10000, 0⟩ g3) ⟨0, 1, 0⟩).zb ∧
    (quad3dSetupStep (1/10000) (vsub3 ⟨1/10000, 0, 0⟩ g3) ⟨0, 1, 0⟩).zbDot =
      ⟨0, 10000, 0⟩ := by
  refine ⟨by norm_num, ?_, ?_, ?_, ?_, ?_⟩ <;>
    · simp only [quad3dSetupStep, vsub3, vadd3, smul3, dot3, cross3, g3, grav,
        Vec3.mk.injEq, ne_eq, decide_eq_true_eq]
      norm_num

/-- C2 (amended): whenever `‖a_des + g‖ < 1e-3` a warning is signaled and
execution continues (the computation is total, not a fatal error), but there
is no fallback: `z_b` and `z_b_dot` are still obtained by dividing by the
near-zero norm `u`, i.e. `u · z_b = a_des + g` and
`u · z_b_dot = jerk − (z_b·jerk) z_b` hold unconditionally. -/
theorem quad3d_low_norm_warn_and_divide (accel jerk : Vec3) (u : ℚ) (hu : u ≠ 0) :
    ((quad3dSetupStep u accel jerk).warn = true ↔ u < 1/1000) ∧
    smul3 u (quad3dSetupStep u accel jerk).zb = vadd3 accel g3 ∧
    smul3 u (quad3dSetupStep u accel jerk).zbDot =
      vsub3 jerk (smul3 (dot3 (quad3dSetupStep u accel jerk).zb jerk)
        (quad3dSetupStep u accel jerk).zb) := by
  have hx : ∀ a : ℚ, u * (1/u * a) = a := fun a => by field_simp
  refine ⟨by simp [quad3dSetupStep], ?_, ?_⟩
  · simp only [quad3dSetupStep, smul3, vadd3, Vec3.mk.injEq]
    exact ⟨hx _, hx _, hx _⟩
  · simp only [quad3dSetupStep, smul3, vsub3, Vec3.mk.injEq]
    exact ⟨hx _, hx _, hx _⟩

/-- C2 witness: the amended theorem applied at the sub-threshold input
`a_des + g = (1e-4, 0, 0)`, `u = 1e-4`, jerk `(0, 1, 0)`. -/
theorem quad3d_low_norm_warn_and_divide_witness :
    ((quad3dSetupStep (1/10000) (vsub3 ⟨1/10000, 0, 0⟩ g3) ⟨0, 1, 0⟩).warn = true ↔
      (1 : ℚ)/10000 < 1/1000) ∧
    smul3 (1/10000) (quad3dSetupStep (1/10000) (vsub3 ⟨1/10000, 0, 0⟩ g3) ⟨0, 1, 0⟩).zb =
      vadd3 (vsub3 ⟨1/10000, 0, 0⟩ g3) g3 ∧
    smul3 (1/10000) (quad3dSetupStep (1/10000) (vsub3 ⟨1/10000, 0, 0⟩ g3) ⟨0, 1, 0⟩).zbDot =
      vsub3 ⟨0, 1, 0⟩
        (smul3 (dot3 (quad3dSetupStep (1/10000) (vsub3 ⟨1/10000, 0, 0⟩ g3) ⟨0, 1, 0⟩).zb
            ⟨0, 1, 0⟩)
          (quad3dSetupStep (1/10000) (vsub3 ⟨1/10000, 0, 0⟩ g3) ⟨0, 1, 0⟩).zb) :=
  quad3d_low_norm_warn_and_divide (vsub3 ⟨1/10000, 0, 0⟩ g3) ⟨0, 1, 0⟩ (1/10000) (by norm_num)

/- ## C6: the trial loop structure (ilc.py lines 374-524) -/

/-- The five phases the trial loop of `ilc.py:374-524` steps through. -/
inductive TrialPhase
  | simulate
  | measure
  | buildOperator
  | solve
  | update
deriving DecidableEq

/-- The phases executed by iteration `iterNo` of the trial loop: every
iteration simulates (`ilc.py:379`) and measures/reports errors
(`ilc.py:418-427`); then `if iter_no >= args.trials - 1: break`
(`ilc.py:443-444`) skips the learning-operator construction (`:446-464`),
the solve (`:484-488`) and the lifted-control update (`:493-524`) on the
final iteration. -/
def trialBody (iterNo trials : ℕ) : List TrialPhase :=
  [TrialPhase.simulate, TrialPhase.measure] ++
    (if trials - 1 ≤ iterNo then []
     else [TrialPhase.buildOperator, TrialPhase.solve, TrialPhase.update])

/-- The full phase trace of `for iter_no in range(args.trials)`
(`ilc.py:374`); the `break` fires only at the last index of the range, so
iterating the body over the whole range is the exact trace. -/
def runTrace (trials : ℕ) : List TrialPhase :=
  (List.range trials).flatMap (fun i => trialBody i trials)

theorem flatMap_const_body {α : Type} (body : List α) :
    ∀ (m : ℕ) (f : ℕ → List α), (∀ i, i < m → f i = body) →
      (List.range m).flatMap f = (List.replicate m body).flatten := by
  intro m
  induction m with
  | zero => intro f _; simp
  | succ k ih =>
    intro f hf
    rw [List.range_succ, List.flatMap_append, ih f (fun i hi => hf i (Nat.lt_succ_of_lt hi)),
      List.flatMap_cons, List.flatMap_nil, List.append_nil, hf k (Nat.lt_succ_self k)]
    have : List.replicate (k + 1) body = List.replicate k body ++ [body] := by
      rw [List.replicate_succ']
    rw [this, List.flatten_append, List.flatten_cons, List.flatten_nil, List.append_nil]

/-- C6: in a run of `trials ≥ 1` trials, each of the first `trials − 1`
iterations performs simulate, measure, build-operator, solve, update in that
order, and the final iteration performs only the simulation and the error
measurement/report — no learning-operator construction, no solve, and no
update of the lifted control. -/
theorem trial_loop_phase_trace (trials : ℕ) (h : 1 ≤ trials) :
    runTrace trials =
      (List.replicate (trials - 1)
          [TrialPhase.simulate, TrialPhase.measure, TrialPhase.buildOperator,
            TrialPhase.solve, TrialPhase.update]).flatten ++
        [TrialPhase.simulate, TrialPhase.measure] := by
  obtain ⟨n, rfl⟩ : ∃ n, trials = n + 1 := ⟨trials - 1, by omega⟩
  simp only [runTrace, Nat.add_sub_cancel]
  rw [List.range_succ, List.flatMap_append, List.flatMap_cons, List.flatMap_nil,
    List.append_nil]
  have hlast : trialBody n (n + 1) = [TrialPhase.simulate, TrialPhase.measure] := by
    simp [trialBody]
  have hfull : ∀ i, i < n → trialBody i (n + 1) =
      [TrialPhase.simulate, TrialPhase.measure, TrialPhase.buildOperator,
        TrialPhase.solve, TrialPhase.update] := by
    intro i hi
    simp only [trialBody, Nat.add_sub_cancel]
    rw [if_neg (by omega)]
    rfl
  rw [hlast, flatMap_const_body _ n _ hfull]

/-- C6 witness: the phase-trace theorem evaluated at a concrete 3-trial run. -/
theorem trial_loop_phase_trace_witness :
    runTrace 3 =
      (List.replicate 2
          [TrialPhase.simulate, TrialPhase.measure, TrialPhase.buildOperator,
            TrialPhase.solve, TrialPhase.update]).flatten ++
        [TrialPhase.simulate, TrialPhase.measure] :=
  trial_loop_phase_trace 3 (by decide)

/- ## C10: linearization point selection (ilc.py lines 446-462) -/

/-- The linearization-point selection loop of `ilc.py:446-462`:
`for i in list(range(N)) + [N - 1]`, with `ind = i` when `relin_time` else
`ind = 0`, picking the current trial's block (`data[ind]` /
`lifted_control[ind]`-block) when `relin_iter` and the pre-first-trial
buffers (`initial_lifted_state` / `initial_lifted_control` blocks) otherwise.
The per-index block extraction is abstracted as index-to-block maps `cur`
and `ini`; the code builds the `states` and `controls` lists by two
applications of this same schema. -/
def linSelect {α : Type} (relinTime relinIter : Bool) (N : ℕ)
    (cur : ℕ → α) (ini : ℕ → α) : List α :=
  ((List.range N) ++ [N - 1]).map (fun i =>
    let ind := if relinTime then i else 0
    if relinIter then cur ind else ini ind)

theorem linSelect_getD {α : Type} (rt ri : Bool) (N : ℕ) (cur ini : ℕ → α)
    (j : ℕ) (d : α) (hN : 1 ≤ N) (hj : j ≤ N) :
    (linSelect rt ri N cur ini).getD j d =
      (if ri then cur (if rt then min j (N - 1) else 0)
       else ini (if rt then min j (N - 1) else 0)) := by
  by_cases hlt : j < N
  · have hmin : min j (N - 1) = j := by omega
    simp only [linSelect, List.map_append, List.getD_eq_getElem?_getD]
    rw [List.getElem?_append_left (by simpa using hlt), List.getElem?_map,
      List.getElem?_range hlt]
    simp [hmin]
  · have hjN : j = N := by omega
    have hmin : min j (N - 1) = N - 1 := by omega
    simp only [linSelect, List.map_append, List.getD_eq_getElem?_getD]
    rw [List.getElem?_append_right (by simpa using Nat.le_of_eq hjN.symm)]
    simp [hjN, hmin]

/-- C10: the lists passed to `get_learning_operator` have `N + 1` entries;
with relin-time enabled entry `i < N` is the step-`i` choice and the final
entry duplicates the step-`N−1` choice; with relin-time disabled every entry
is the step-0 choice; and with relin-iter disabled the selection is
independent of the current trial's data and lifted control, every entry
coming from the pre-first-trial (initial) lifted buffers. -/
theorem linearization_points_selection {α β : Type} (rt ri : Bool) (N : ℕ)
    (dataRow dataRow' : ℕ → α) (curC curC' : ℕ → β) (initS : ℕ → α) (initC : ℕ → β)
    (dS : α) (dC : β) (i j : ℕ) (hN : 1 ≤ N) (hi : i < N) (hj : j ≤ N) :
    ((linSelect rt ri N dataRow initS).length = N + 1 ∧
      (linSelect rt ri N curC initC).length = N + 1) ∧
    ((linSelect true ri N dataRow initS).getD i dS =
        (if ri then dataRow i else initS i) ∧
      (linSelect true ri N dataRow initS).getD N dS =
        (linSelect true ri N dataRow initS).getD (N - 1) dS ∧
      (linSelect true ri N curC initC).getD N dC =
        (linSelect true ri N curC initC).getD (N - 1) dC) ∧
    ((linSelect false ri N dataRow initS).getD j dS =
        (if ri then dataRow 0 else initS 0) ∧
      (linSelect false ri N curC initC).getD j dC =
        (if ri then curC 0 else initC 0)) ∧
    (linSelect rt false N dataRow initS = linSelect rt false N dataRow' initS ∧
      linSelect rt false N curC initC = linSelect rt false N curC' initC ∧
      linSelect rt false N dataRow initS =
        ((List.range N) ++ [N - 1]).map (fun k => initS (if rt then k else 0))) := by
  refine ⟨⟨by simp [linSelect], by simp [linSelect]⟩, ⟨?_, ?_, ?_⟩, ⟨?_, ?_⟩, ?_, ?_, ?_⟩
  · rw [linSelect_getD true ri N dataRow initS i dS hN (Nat.le_of_lt hi)]
    have hmin : min i (N - 1) = i := by omega
    simp [hmin]
  · rw [linSelect_getD true ri N dataRow initS N dS hN (Nat.le_refl N),
      linSelect_getD true ri N dataRow initS (N - 1) dS hN (by omega)]
    have hmin : min N (N - 1) = N - 1 := by omega
    have hmin2 : min (N - 1) (N - 1) = N - 1 := by omega
    simp [hmin, hmin2]
  · rw [linSelect_getD true ri N curC initC N dC hN (Nat.le_refl N),
      linSelect_getD true ri N curC initC (N - 1) dC hN (by omega)]
    have hmin : min N (N - 1) = N - 1 := by omega
    have hmin2 : min (N - 1) (N - 1) = N - 1 := by omega
    simp [hmin, hmin2]
  · rw [linSelect_getD false ri N dataRow initS j dS hN hj]
    simp
  · rw [linSelect_getD false ri N curC initC j dC hN hj]
    simp
  · simp [linSelect]
  · simp [linSelect]
  · simp [linSelect]

/-- C10 witness: the selection theorem evaluated at `N = 3` with concrete
index-to-block maps. -/
theorem linearization_points_selection_witness :
    (linSelect true false 3 (fun k => k) (fun k => k + 10)).length = 3 + 1 ∧
    (linSelect true false 3 (fun k => k + 20) (fun k => k + 30)).length = 3 + 1 :=
  (linearization_points_selection true false 3 (fun k => k) (fun k => k + 100)
    (fun k => k + 20) (fun k => k + 200) (fun k => k + 10) (fun k => k + 30)
    99 99 1 2 (by decide) (by decide) (by decide)).1

/- ## C7: the feedback-response probe (ilc.py lines 280-309) -/

/-- Modelled from the spec: the model's `feedback(..., integrate=...)` entry
point (the `ilc_models` package is not in the snapshot).  Per §4.2 the
control command is a function `law` of the probed state and the internal
integrator state, and the internal state advances by one step only when
`integrate` is true — the `integrate=False` path leaves it untouched. -/
def feedbackCall {σ : Type} (law : List ℚ → σ → List ℚ) (advance : σ → σ)
    (integrate : Bool) (x : List ℚ) (s : σ) : List ℚ × σ :=
  (law x s, if integrate then advance s else s)

/-- The probe perturbation of `ilc.py:292-293`:
`x_try = x.copy(); x_try[i] += try_eps`. -/
def bump (x : List ℚ) (i : ℕ) (eps : ℚ) : List ℚ := x.set i (x.getD i 0 + eps)

/-- The empirical control-law Jacobian probe of `ilc.py:289-309` (generic
branch): `feedback = ilc.feedback(*arg_list, integrate=False)` once, then for
each state component `i` a perturbed call
`feedback_try = ilc.feedback(*arg_list, integrate=False)` at `x_try`, with
`deriv = (feedback_try - feedback) / try_eps` stored as column `i` of the
response.  Every call goes through `feedbackCall` with `integrate = false`,
threading the internal integrator state; the result is the list of columns
paired with the final integrator state. -/
def probeResponse {σ : Type} (law : List ℚ → σ → List ℚ) (advance : σ → σ)
    (eps : ℚ) (x : List ℚ) (s : σ) : List (List ℚ) × σ :=
  let base := feedbackCall law advance false x s
  (List.range x.length).foldl
    (fun acc i =>
      let fb := feedbackCall law advance false (bump x i eps) acc.2
      (acc.1 ++ [vscale (1/eps) (vsub fb.1 base.1)], fb.2))
    ([], base.2)

/-- Modelled from the claim's words, for comparison with `probeResponse`:
a central finite difference of the law, `(f(x+εeᵢ) − f(x−εeᵢ)) / (2ε)` per
state component. -/
def centralJacobianSpec {σ : Type} (law : List ℚ → σ → List ℚ) (eps : ℚ)
    (x : List ℚ) (s : σ) : List (List ℚ) :=
  (List.range x.length).map (fun i =>
    vscale (1/(2 * eps)) (vsub (law (bump x i eps) s) (law (bump x i (-eps)) s)))

theorem probe_foldl {σ : Type} (col : σ → ℕ → List ℚ) :
    ∀ (l : List ℕ) (acc : List (List ℚ)) (t : σ),
      l.foldl (fun a i => (a.1 ++ [col a.2 i], a.2)) (acc, t) = (acc ++ l.map (col t), t)
  | [], acc, t => by simp
  | i :: l, acc, t => by
    rw [List.foldl_cons, probe_foldl col l (acc ++ [col t i]) t]
    simp

/-- The probe computes exactly the forward differences at the unchanged
integrator state `s`. -/
theorem probeResponse_eq {σ : Type} (law : List ℚ → σ → List ℚ) (advance : σ → σ)
    (eps : ℚ) (x : List ℚ) (s : σ) :
    probeResponse law advance eps x s =
      ((List.range x.length).map
        (fun i => vscale (1/eps) (vsub (law (bump x i eps) s) (law x s))), s) := by
  have h := probe_foldl
    (fun (t : σ) (i : ℕ) => vscale (1/eps) (vsub (law (bump x i eps) t) (law x s)))
    (List.range x.length) [] s
  simpa [probeResponse, feedbackCall] using h

/-- C7 counterexample: the probe is a one-sided forward difference, not a
central difference.  For the law `v ↦ [v₀²]` at `x = [0]` with
`ε = 1e-6`, the code's probe gives the column `[1e-6]`, while a central
difference with the same perturbation gives `[0]`. -/
theorem probe_not_central_difference_counterexample :
    (probeResponse (fun v _ => [v.getD 0 0 * v.getD 0 0]) (id : Unit → Unit)
        (1/1000000) [0] ()).1 ≠
      centralJacobianSpec (fun v _ => [v.getD 0 0 * v.getD 0 0]) (1/1000000) [0] () := by
  rw [probeResponse_eq]
  simp only [centralJacobianSpec, bump, vscale, vsub]
  norm_num

theorem vsub_vadd_cancel : ∀ (u v w : List ℚ), u.length = v.length → v.length = w.length →
    vsub (vadd u w) (vadd v w) = vsub u v
  | [], [], _, _, _ => by simp [vsub, vadd]
  | a :: u, b :: v, [], hu, hv => by simp at hv
  | a :: u, b :: v, c :: w, hu, hv => by
    simp only [vadd, vsub, List.zipWith_cons_cons]
    have := vsub_vadd_cancel u v w (by simpa using hu) (by simpa using hv)
    simp only [vadd, vsub] at this
    rw [this]
    ring_nf

theorem dotL_bump (eps : ℚ) : ∀ (x r : List ℚ) (i : ℕ), i < x.length →
    r.length = x.length →
    dotL r (bump x i eps) = dotL r x + eps * r.getD i 0
  | [], r, i, hi, _ => by simp at hi
  | a :: xs, [], i, hi, hr => by simp at hr
  | a :: xs, c :: rs, 0, hi, hr => by
    simp only [bump, List.getD_cons_zero, List.set_cons_zero, dotL_cons]
    ring
  | a :: xs, c :: rs, i + 1, hi, hr => by
    simp only [bump, List.getD_cons_succ, List.set_cons_succ, dotL_cons]
    have := dotL_bump eps xs rs i (by simpa using hi) (by simpa using hr)
    simp only [bump] at this
    rw [this]
    ring

theorem vsub_matVec_bump (eps : ℚ) (x : List ℚ) (i : ℕ) (hi : i < x.length) :
    ∀ (A : List (List ℚ)), (∀ r ∈ A, r.length = x.length) →
      vsub (matVec A (bump x i eps)) (matVec A x) =
        vscale eps (A.map (fun r => r.getD i 0))
  | [], _ => by simp [matVec, vsub, vscale]
  | r :: A, h => by
    simp only [matVec, List.map_cons, vsub, vscale, List.zipWith_cons_cons]
    have hr := h r (List.mem_cons_self r A)
    rw [dotL_bump eps x r i hi hr]
    have ih := vsub_matVec_bump eps x i hi A (fun r hr => h r (List.mem_cons_of_mem _ hr))
    simp only [matVec, vsub, vscale] at ih
    rw [ih]
    congr 1
    ring

theorem vscale_vscale (a b : ℚ) (v : List ℚ) : vscale a (vscale b v) = vscale (a * b) v := by
  simp only [vscale, List.map_map]
  exact List.map_congr_left (fun r _ => by simp [mul_assoc])

/-- C7 (amended): the empirical control-law Jacobian is computed by a
one-sided forward finite difference with perturbation `1e-6` (not a central
difference), with every probing call made with `integrate=False` so it does
not mutate the internal integrator state: (i) the state after probing equals
the state before; (ii) column `i` is the forward difference
`(law(x + ε·eᵢ) − law(x)) / ε`; (iii) for an affine law `v ↦ A·v + b` the
probe recovers exactly the `i`-th column of `A`, for any nonzero `ε`. -/
theorem probe_forward_difference {σ : Type} (law : List ℚ → σ → List ℚ)
    (advance : σ → σ) (eps : ℚ) (x : List ℚ) (s : σ) (A : List (List ℚ)) (b : List ℚ)
    (i : ℕ) (heps : eps ≠ 0) (hi : i < x.length)
    (hrows : ∀ r ∈ A, r.length = x.length) (hb : b.length = A.length) :
    (probeResponse law advance eps x s).2 = s ∧
    (probeResponse law advance eps x s).1.getD i [] =
      vscale (1/eps) (vsub (law (bump x i eps) s) (law x s)) ∧
    (probeResponse (fun v _ => vadd (matVec A v) b) advance eps x s).1.getD i [] =
      A.map (fun r => r.getD i 0) := by
  refine ⟨by rw [probeResponse_eq], ?_, ?_⟩
  · rw [probeResponse_eq]
    exact getD_map_range _ _ _ _ hi
  · rw [probeResponse_eq]
    rw [getD_map_range _ _ _ _ hi]
    rw [vsub_vadd_cancel _ _ _ (by simp [matVec]) (by simp [matVec, hb])]
    rw [vsub_matVec_bump eps x i hi A hrows, vscale_vscale]
    rw [one_div, inv_mul_cancel₀ heps]
    simp [vscale]

/-- C7 witness: the amended probe theorem at the concrete law `v ↦ [v₀²]`
(and affine comparison `A = [[3]]`, `b = [5]`) with `x = [0]`,
`ε = 1e-6`. -/
theorem probe_forward_difference_witness :
    (probeResponse (fun v _ => [v.getD 0 0 * v.getD 0 0]) (id : Unit → Unit)
        (1/1000000) [0] ()).2 = () ∧
    (probeResponse (fun v _ => [v.getD 0 0 * v.getD 0 0]) (id : Unit → Unit)
        (1/1000000) [0] ()).1.getD 0 [] =
      vscale (1/(1/1000000))
        (vsub ((fun (v : List ℚ) (_ : Unit) => [v.getD 0 0 * v.getD 0 0]) (bump [0] 0 (1/1000000)) ())
          ((fun (v : List ℚ) (_ : Unit) => [v.getD 0 0 * v.getD 0 0]) [0] ())) ∧
    (probeResponse (fun v _ => vadd (matVec [[3]] v) [5]) (id : Unit → Unit)
        (1/1000000) [0] ()).1.getD 0 [] =
      [[(3 : ℚ)]].map (fun r => r.getD 0 0) :=
  probe_forward_difference (fun v _ => [v.getD 0 0 * v.getD 0 0]) id (1/1000000) [0] ()
    [[3]] [5] 0 (by norm_num) (by decide)
    (by intro r hr; rw [List.mem_singleton] at hr; subst hr; rfl) (by decide)

/- ## C8: reference trajectory derivatives (ilc.py lines 118-131, 161-178) -/

/-- Polynomial evaluation in numpy's convention (`np.polyval`): coefficients
highest degree first, Horner's scheme. -/
def polyval (p : List ℚ) (t : ℚ) : ℚ := p.foldl (fun acc c => acc * t + c) 0

/-- Symbolic polynomial differentiation in numpy's convention
(`np.polyder`): the coefficient of degree `k` is multiplied by `k` and the
constant term is dropped, coefficients highest degree first. -/
def polyder : List ℚ → List ℚ
  | [] => []
  | [_] => []
  | c :: d :: rest => (((d :: rest).length : ℚ) * c) :: polyder (d :: rest)

/-- Interpretation of a highest-first coefficient list as a polynomial.
This is specification-side mathematics (the program has no such object), so
it is the one definition here without executable code. -/
noncomputable def toPoly : List ℚ → Polynomial ℚ
  | [] => 0
  | c :: rest => Polynomial.C c * Polynomial.X ^ rest.length + toPoly rest

theorem polyder_length : ∀ p : List ℚ, (polyder p).length = p.length - 1
  | [] => rfl
  | [_] => rfl
  | _ :: d :: rest => by
    simp only [polyder, List.length_cons, polyder_length (d :: rest)]
    omega

/-- The code's `np.polyder` is exact symbolic differentiation. -/
theorem toPoly_polyder : ∀ p : List ℚ, toPoly (polyder p) = Polynomial.derivative (toPoly p)
  | [] => by simp [polyder, toPoly]
  | [c] => by simp [polyder, toPoly]
  | c :: d :: rest => by
    simp only [polyder, toPoly, polyder_length, List.length_cons, Polynomial.derivative_add,
      Polynomial.derivative_C_mul_X_pow, toPoly_polyder (d :: rest)]
    rw [mul_comm ((rest.length + 1 : ℕ) : ℚ) c]

theorem polyval_loop (t : ℚ) : ∀ (p : List ℚ) (acc : ℚ),
    p.foldl (fun a c => a * t + c) acc = acc * t ^ p.length + (toPoly p).eval t
  | [], acc => by simp [toPoly]
  | c :: rest, acc => by
    rw [List.foldl_cons, polyval_loop t rest (acc * t + c)]
    simp only [toPoly, List.length_cons, Polynomial.eval_add, Polynomial.eval_mul,
      Polynomial.eval_C, Polynomial.eval_pow, Polynomial.eval_X]
    ring

/-- The code's `np.polyval` evaluates the interpreted polynomial. -/
theorem polyval_eq_eval (p : List ℚ) (t : ℚ) : polyval p t = (toPoly p).eval t := by
  have h := polyval_loop t p 0
  simpa [polyval] using h

/-- The system names whose first four desired positions are zeroed before
use (`ilc.py:161-163`); the same line also zeroes them for any system name
containing `"3d"`. -/
def possMutSystems : List String := [ "2dpos", "linearpos", "2dposlin", "nl1d" ]

/-- The substring test `'3d' in args.system`, on the character list. -/
def has3d : List Char → Bool
  | [] => false
  | [_] => false
  | a :: b :: rest => (a == '3' && b == 'd') || has3d (b :: rest)

/-- The reference mutation of `ilc.py:161-163`: for the listed systems (and
any system whose name contains `"3d"`) the entries `poss_des[i]`,
`i < min(4, N)`, are set to `0.0` before `poss_des_vec` — the sequence used
in error measurement — is formed. -/
def mutatePoss (system : String) (N : ℕ) (poss : List ℚ) : List ℚ :=
  if system ∈ possMutSystems ∨ has3d system.data = true then
    (List.range poss.length).map (fun i => if i < min 4 N then 0 else poss.getD i 0)
  else poss

/-- The system names whose second desired acceleration is zeroed
(`ilc.py:165-166`). -/
def accelMutSystems : List String := [ "linear", "2d", "linearpos" ]

/-- The reference mutation of `ilc.py:165-166`: `accels_des[1] = 0.0`. -/
def mutateAccels (system : String) (accels : List ℚ) : List ℚ :=
  if system ∈ accelMutSystems then accels.set 1 0 else accels

/-- Modelled from the spec: the position polynomial produced by `get_poly`
(`ilc.py:13-21`) via `polynomial_utils.deriv_fitting_matrix`, which is not
in the snapshot.  Per §4.1 it is the degree-7 polynomial matching position,
velocity, acceleration, jerk `= 0` at `t = 0` and position `D`, velocity,
acceleration, jerk `= 0` at `t = 1` (unit duration); the unique such
polynomial is `D·(35t⁴ − 84t⁵ + 70t⁶ − 20t⁷)`, written here with
highest-first coefficients as `np.polyval` expects. -/
def posPolyCoeffs (D : ℚ) : List ℚ :=
  [-20 * D, 70 * D, -84 * D, 35 * D, 0, 0, 0, 0]

/-- The uniform time grid `ts = np.linspace(0, t_end, N + 1)` with
`t_end = 1.0` (`ilc.py:111`). -/
def tsGrid (N : ℕ) : List ℚ := (List.range (N + 1)).map (fun (i : ℕ) => (i : ℚ) / (N : ℚ))

/-- Sanity check of the spec-modelled polynomial: it meets all eight
boundary conditions of §4.1. -/
theorem posPolyCoeffs_boundary (D : ℚ) :
    polyval (posPolyCoeffs D) 0 = 0 ∧
    polyval (polyder (posPolyCoeffs D)) 0 = 0 ∧
    polyval (polyder (polyder (posPolyCoeffs D))) 0 = 0 ∧
    polyval (polyder (polyder (polyder (posPolyCoeffs D)))) 0 = 0 ∧
    polyval (posPolyCoeffs D) 1 = D ∧
    polyval (polyder (posPolyCoeffs D)) 1 = 0 ∧
    polyval (polyder (polyder (posPolyCoeffs D))) 1 = 0 ∧
    polyval (polyder (polyder (polyder (posPolyCoeffs D)))) 1 = 0 := by
  refine ⟨?_, ?_, ?_, ?_, ?_, ?_, ?_, ?_⟩ <;>
    · simp only [posPolyCoeffs, polyder, polyval, List.foldl_cons, List.foldl_nil,
        List.length_cons, List.length_nil]
      push_cast
      ring

/-- C8 counterexample: for the system variant `2dpos` (the code does the
same for `linearpos`, `2dposlin`, `nl1d` and every `3d` variant) the desired
position sequence actually used in error measurement is not the sampled
position polynomial: entries 0..3 are zeroed at `ilc.py:161-163`, so the
velocity/acceleration/jerk/snap sequences (exact derivatives of the
polynomial) are no longer derivatives of the used position sequence.
Concrete instance: default distance `1.5`, `N = 50`. -/
theorem used_positions_not_polynomial_counterexample :
    mutatePoss ("2dpos") 50 ((tsGrid 50).map (polyval (posPolyCoeffs (3/2)))) ≠
      (tsGrid 50).map (polyval (posPolyCoeffs (3/2))) := by
  have hgetD : ((tsGrid 50).map (polyval (posPolyCoeffs (3/2)))).getD 1 0 =
      polyval (posPolyCoeffs (3/2)) (1/50) := by
    rw [tsGrid, List.map_map, getD_map_range _ _ _ _ (by norm_num)]
    simp only [Function.comp_apply]
    norm_num
  have hlen : ((tsGrid 50).map (polyval (posPolyCoeffs (3/2)))).length = 51 := by
    rw [List.length_map, tsGrid, List.length_map, List.length_range]
  have hmem : ("2dpos" ∈ possMutSystems ∨ has3d ("2dpos").data = true) := by
    left
    simp [possMutSystems]
  intro h
  have h1 := congrArg (fun l => l.getD 1 0) h
  simp only at h1
  rw [mutatePoss, if_pos hmem, hlen, getD_map_range _ _ _ _ (by norm_num),
    if_pos (by norm_num), hgetD] at h1
  have hne : polyval (posPolyCoeffs (3/2)) ((1 : ℚ)/50) ≠ 0 := by
    simp only [posPolyCoeffs, polyval, List.foldl_cons, List.foldl_nil]
    norm_num
  exact hne h1.symm

/-- C8 (amended): the generated velocity, acceleration, jerk and snap
sequences are exact successive symbolic derivatives of the single position
polynomial (conjuncts 1-2, via `toPoly`), but the orchestrator then zeroes
the first four desired positions for some variants and the second desired
acceleration for others (`ilc.py:161-166`); only for variants outside both
mutation lists (e.g. `trivial`, `simple`, `2ddedi`) do the sequences used in
error measurement coincide with the sampled polynomial and its
derivatives. -/
theorem reference_derivative_chain (p : List ℚ) (t : ℚ) (system : String) (N : ℕ)
    (poss accs : List ℚ)
    (hposs : ¬ system ∈ possMutSystems) (h3d : has3d system.data = false)
    (haccs : ¬ system ∈ accelMutSystems) :
    toPoly (polyder p) = Polynomial.derivative (toPoly p) ∧
    polyval (polyder p) t = (Polynomial.derivative (toPoly p)).eval t ∧
    mutatePoss system N poss = poss ∧
    mutateAccels system accs = accs := by
  refine ⟨toPoly_polyder p, ?_, ?_, ?_⟩
  · rw [polyval_eq_eval, toPoly_polyder]
  · rw [mutatePoss, if_neg]
    rintro (h | h)
    · exact hposs h
    · rw [h3d] at h
      exact Bool.false_ne_true h
  · rw [mutateAccels, if_neg haccs]

/-- C8 witness: the amended theorem at `system = "trivial"` with a concrete
polynomial and sequences. -/
theorem reference_derivative_chain_witness :
    toPoly (polyder [1, 2]) = Polynomial.derivative (toPoly [1, 2]) ∧
    polyval (polyder [1, 2]) 3 = (Polynomial.derivative (toPoly [1, 2])).eval 3 ∧
    mutatePoss ("trivial") 5 [1, 2, 3] = [1, 2, 3] ∧
    mutateAccels ("trivial") [4, 5] = [4, 5] :=
  reference_derivative_chain [1, 2] 3 ("trivial") 5 [1, 2, 3] [4, 5]
    (by simp [possMutSystems]) (by rfl) (by simp [accelMutSystems])
